import Mathlib

/-!
Shallow embedding of the monkeytype-israel-leaderboard server
(src/server.js, src/lib/store.js, src/unnamed/part_000) and proofs of the
frozen claims about it.

Modelling conventions:
* JavaScript strings are Lean `String`; the character-level operations
  (trim, slice, toLowerCase) are re-implemented over the character list so
  that they evaluate inside the kernel.  Unicode NFKC normalization is
  modelled as the identity (all claim-relevant inputs are ASCII and no
  claim depends on confusable folding).
* The SHA-256 hex digest is modelled by an injective tagging function:
  every claim-relevant behaviour of the code depends only on equality or
  inequality of digests, which the model preserves.
* Numbers: wpm values are `Int`, accuracies are `Rat` (the code only ever
  compares and copies them), ISO-8601 timestamps are modelled by their
  millisecond value (`Int`), which is order-isomorphic to the string form
  the code stores and re-parses with `new Date`.
* External collaborators (region gate, upstream HTTP API, clock) are
  passed in as explicit oracle arguments; file persistence is modelled by
  explicit state passing of the two stores.
-/

/-- JS whitespace test used by `String.prototype.trim` (modelled on the
ASCII subset: space, tab, newline, carriage return). -/
def jsWhitespace (c : Char) : Bool := c = ' ' || c = '\t' || c = '\n' || c = '\r'

/-- Drop leading and trailing whitespace from a character list. -/
def jsTrimList (l : List Char) : List Char :=
  ((l.dropWhile jsWhitespace).reverse.dropWhile jsWhitespace).reverse

/-- `String.prototype.trim()`. -/
def jsTrim (s : String) : String := ⟨jsTrimList s.data⟩

/-- `String.prototype.slice(0, n)`. -/
def jsTake (n : Nat) (s : String) : String := ⟨s.data.take n⟩

/-- ASCII lower-casing of one character, as `toLowerCase` acts on the
restricted username charset. -/
def jsLowerChar (c : Char) : Char :=
  if 'A' ≤ c ∧ c ≤ 'Z' then Char.ofNat (c.toNat + 32) else c

/-- `String.prototype.toLowerCase()` on the ASCII range. -/
def jsToLower (s : String) : String := ⟨s.data.map jsLowerChar⟩

/-- Model of the hex SHA-256 digest `sha256` from server.js line 237 and
store.js line 40.  The cryptographic digest is not translatable; it is
modelled by an injective tag, faithful because every use in the code is an
equality test or a map key, never an inversion. -/
def sha256 (s : String) : String := "sha256:" ++ s

/-- Lookup in a JS object modelled as an association list in insertion
order (first match wins; keys are kept unique by `setKV`). -/
def lookupKV : List (String × String) → String → Option String
  | [], _ => none
  | (k, v) :: rest, key => if k = key then some v else lookupKV rest key

/-- JS object property assignment: replace the value in place if the key
exists, otherwise append the new key at the end (insertion order). -/
def setKV : List (String × String) → String → String → List (String × String)
  | [], key, v => [(key, v)]
  | (k, w) :: rest, key, v =>
      if k = key then (key, v) :: rest else (k, w) :: setKV rest key v

/-- JS `delete obj[key]` (object keys are unique, so removing every entry
with the key is the same as removing the one entry). -/
def delKV (m : List (String × String)) (key : String) : List (String × String) :=
  m.filter (fun e => !(e.1 == key))

/-- A leaderboard profile record as stored in users.json: the fields
written by `refreshOne` and the sweep and read by the leaderboard route. -/
structure Profile where
  username : String
  wpm15 : Int
  accuracy : Rat
  timestamp : Int
  country : Option String
deriving DecidableEq, Repr

/-- An argument to `upsertUser` (store.js line 21): a JS object that always
carries `username` and may or may not carry each remaining field; `none`
models an absent property. -/
structure ProfilePatch where
  username : String
  wpm15 : Option Int
  accuracy : Option Rat
  timestamp : Option Int
  country : Option String
deriving DecidableEq, Repr

/-- The JS spread merge `{ ...users[idx], ...user }` at store.js line 25:
fields present in the patch win, absent fields keep the stored value. -/
def mergeProfile (old : Profile) (p : ProfilePatch) : Profile :=
  { username := p.username
    wpm15 := p.wpm15.getD old.wpm15
    accuracy := p.accuracy.getD old.accuracy
    timestamp := p.timestamp.getD old.timestamp
    country := match p.country with | some c => some c | none => old.country }

/-- The pushed object in the no-match branch of `upsertUser` (store.js
line 27).  All call sites in the repository push complete records, so the
numeric defaults for absent fields are never observable. -/
def patchProfile (p : ProfilePatch) : Profile :=
  { username := p.username
    wpm15 := p.wpm15.getD 0
    accuracy := p.accuracy.getD 0
    timestamp := p.timestamp.getD 0
    country := p.country }

/-- `upsertUser` (store.js lines 21-31): find the first profile whose
username matches case-insensitively; spread-merge the patch over it in
place, otherwise push the patch at the end.  The recursion replaces the
first match exactly as `findIndex` plus index assignment does. -/
def upsertUser : List Profile → ProfilePatch → List Profile
  | [], p => [patchProfile p]
  | u :: rest, p =>
      if jsToLower u.username = jsToLower p.username then mergeProfile u p :: rest
      else u :: upsertUser rest p

/-- `usernameExists` (server.js lines 275-279): case-insensitive,
trimmed membership test over the profile store. -/
def usernameExists (users : List Profile) (siteUsername : String) : Bool :=
  let want := jsToLower (jsTrim siteUsername)
  users.any (fun u => jsToLower (jsTrim u.username) == want)

/-- The keystore document (store.js lines 51-63): a forward index from
username to Ape Key and a reverse index from key hash to username. -/
structure Keystore where
  byUser : List (String × String)
  byHash : List (String × String)
deriving DecidableEq, Repr

/-- JS `x || null` applied to a string-valued property read: a missing
property or an empty-string value both become null. -/
def jsOrNull (v : Option String) : Option String :=
  match v with
  | some s => if s = "" then none else some s
  | none => none

/-- `upsertKey` (store.js lines 71-86): trim the username; if it already
had a different, non-empty key whose reverse entry still points at it,
remove that stale reverse entry; then write the forward entry and the
reverse entry for the new key. -/
def upsertKey (ks : Keystore) (username apeKey : String) : Keystore :=
  let uname := jsTrim username
  let byHash1 :=
    match lookupKV ks.byUser uname with
    | some prev =>
        if prev ≠ "" ∧ prev ≠ apeKey ∧ lookupKV ks.byHash (sha256 prev) = some uname then
          delKV ks.byHash (sha256 prev)
        else ks.byHash
    | none => ks.byHash
  { byUser := setKV ks.byUser uname apeKey
    byHash := setKV byHash1 (sha256 apeKey) uname }

/-- `getApeKey` (store.js lines 88-91). -/
def getApeKey (ks : Keystore) (username : String) : Option String :=
  jsOrNull (lookupKV ks.byUser (jsTrim username))

/-- `findUsernameByKeyHash` (store.js lines 94-97). -/
def findUsernameByKeyHash (ks : Keystore) (keyHash : String) : Option String :=
  jsOrNull (lookupKV ks.byHash keyHash)

/-- `setUsernameForKeyHash` (store.js lines 100-104): bind a key hash to a
trimmed username in the reverse index only. -/
def setUsernameForKeyHash (ks : Keystore) (keyHash username : String) : Keystore :=
  { ks with byHash := setKV ks.byHash keyHash (jsTrim username) }

/-- Modelled from the spec: `deleteUserAndKey` is imported by server.js
(line 20) from the keystore module, but its definition is absent from the
provided sources.  Section 4.1 of the spec describes the deletion
operation: remove the forward entry, and remove the reverse entry only if
it currently points at this exact username. -/
def deleteUserAndKey (ks : Keystore) (username : String) : Keystore :=
  let uname := jsTrim username
  match lookupKV ks.byUser uname with
  | some cred =>
      { byUser := delKV ks.byUser uname
        byHash :=
          if lookupKV ks.byHash (sha256 cred) = some uname then
            delKV ks.byHash (sha256 cred)
          else ks.byHash }
  | none => { ks with byUser := delKV ks.byUser uname }

/-- Upstream response to the single personal-bests probe request issued by
`testApeKey`: a network failure or an HTTP status. -/
inductive ProbeResp where
  | network (msg : String)
  | http (status : Nat)
deriving DecidableEq, Repr

/-- The object literal returned by `testApeKey` (server.js lines 240-272):
`ok` is true, false or null. -/
structure ApeKeyTest where
  ok : Option Bool
  reason : Option String
  status : Option Nat
deriving DecidableEq, Repr

/-- A JS reference that is either null/undefined or an object, as needed
to render the truthiness test `if (!ok)` faithfully. -/
inductive JsVal (α : Type) where
  | null
  | obj (v : α)
deriving DecidableEq, Repr

/-- `testApeKey` (server.js lines 240-272).  Note that every control path
returns an object literal, never null: 401/470/471/472 give
ok false, any 2xx gives ok true, 429 and 5xx give ok null
(temporary), anything else ok null (unexpected), and a network error or
timeout gives ok null (network). -/
def testApeKey (resp : ProbeResp) : JsVal ApeKeyTest :=
  match resp with
  | .network _ => .obj ⟨none, some "network", none⟩
  | .http st =>
      if st = 401 ∨ st = 470 ∨ st = 471 ∨ st = 472 then
        .obj ⟨some false, some "unauthorized", some st⟩
      else if 200 ≤ st ∧ st ≤ 299 then
        .obj ⟨some true, none, some st⟩
      else if st = 429 ∨ (500 ≤ st ∧ st ≤ 599) then
        .obj ⟨none, some "temporary", some st⟩
      else
        .obj ⟨none, some "unexpected", some st⟩

/-- `normalizeUsername` (server.js lines 281-284): NFKC-normalize
(modelled as the identity), trim, then slice to at most 20 characters. -/
def normalizeUsername (u : String) : String := jsTake 20 (jsTrim u)

/-- One character of the allowed username charset [a-zA-Z0-9_-]. -/
def usernameChar (c : Char) : Bool := c.isAlpha || c.isDigit || c = '_' || c = '-'

/-- `validUsername` (server.js lines 286-288): the regex test for 3 to 20
characters of the allowed charset. -/
def validUsername (u : String) : Bool :=
  3 ≤ u.length && u.length ≤ 20 && u.data.all usernameChar

/-- The score data extracted from a successful upstream best-result fetch
(the wpm15/accuracy pair `refreshOne` writes into the profile). -/
structure Score where
  wpm15 : Int
  accuracy : Rat
deriving DecidableEq, Repr

/-- `refreshOne` (server.js lines 290-311): retry the upstream fetch up to
three times, then upsert the profile with the fetched score, the current
time and country IL.  The retried fetch is abstracted to its overall
outcome: `some` score if any attempt succeeded, `none` if all three
failed (in which case `refreshOne` throws and writes nothing). -/
def refreshOne (fetch : Option Score) (now : Int) (siteUsername : String)
    (users : List Profile) : Option (List Profile) :=
  fetch.map fun sc =>
    upsertUser users ⟨siteUsername, some sc.wpm15, some sc.accuracy, some now, some "IL"⟩

/-- Terminal outcome of a POST /join request (server.js lines 366-426),
with the established session username on the success redirect. -/
inductive JoinOutcome where
  | regionDenied
  | badUsername
  | badKey
  | throttled
  | invalidKey
  | conflict
  | redirectHome (sessionUser : String)
  | serverError
deriving DecidableEq, Repr

/-- The two durable stores the handlers and the sweep read and write. -/
structure ServerState where
  users : List Profile
  keystore : Keystore
deriving DecidableEq, Repr

/-- The POST /join handler (server.js lines 366-426).  `admitted` is the
region-gate verdict, `throttleOk` the per-key-hash cooldown verdict,
`probe` the upstream response to the credential-validation request,
`fetch` the overall outcome of the retried best-result fetch, `now` the
clock.  Note the handler tests the truthiness of the object returned by
`testApeKey` (`if (!ok)`), which is never null, so the `invalidKey`
rejection is unreachable. -/
def joinPost (admitted throttleOk : Bool) (probe : ProbeResp) (fetch : Option Score)
    (now : Int) (usernameInput apeKeyInput : String) (st : ServerState) :
    JoinOutcome × ServerState :=
  if admitted = false then (.regionDenied, st) else
  let siteUsername := normalizeUsername usernameInput
  let apeKey := jsTrim apeKeyInput
  if validUsername siteUsername = false then (.badUsername, st)
  else if apeKey = "" ∨ 180 < apeKey.length then (.badKey, st)
  else
    let keyHash := sha256 apeKey
    if throttleOk = false then (.throttled, st)
    else
      match testApeKey probe with
      | .null => (.invalidKey, st)
      | .obj _ =>
        match findUsernameByKeyHash st.keystore keyHash with
        | some boundUser =>
            match refreshOne fetch now boundUser st.users with
            | some users2 => (.redirectHome boundUser, { st with users := users2 })
            | none => (.serverError, st)
        | none =>
          if usernameExists st.users siteUsername then
            match getApeKey st.keystore siteUsername with
            | none => (.conflict, st)
            | some storedKey =>
                if sha256 storedKey ≠ keyHash then (.conflict, st)
                else
                  match refreshOne fetch now siteUsername st.users with
                  | some users2 => (.redirectHome siteUsername, { st with users := users2 })
                  | none => (.serverError, st)
          else
            let ks2 := setUsernameForKeyHash (upsertKey st.keystore siteUsername apeKey)
              keyHash siteUsername
            match refreshOne fetch now siteUsername st.users with
            | some users2 => (.redirectHome siteUsername, ⟨users2, ks2⟩)
            | none => (.serverError, { st with keystore := ks2 })

/-- The country filter of GET /api/leaderboard (server.js line 504): the
expression `u.country || "IL"`, where a missing or empty country falls
back to IL. -/
def countryOrIL (u : Profile) : String :=
  match u.country with
  | none => "IL"
  | some c => if c = "" then "IL" else c

/-- The sort comparator of GET /api/leaderboard (server.js lines 506-510)
rendered as the before-or-equal test the comparator induces: a may sit
before b exactly when the comparator value is not positive.  Each branch
mirrors one comparator line, which returns the difference of the two
field values, and the sign test of that difference is written as the
equivalent direct comparison: the wpm15 values when they differ, else the
accuracy values, else the parsed timestamps. -/
def lbLe (a b : Profile) : Bool :=
  if b.wpm15 ≠ a.wpm15 then decide (b.wpm15 ≤ a.wpm15)
  else if b.accuracy ≠ a.accuracy then decide (b.accuracy ≤ a.accuracy)
  else decide (b.timestamp ≤ a.timestamp)

/-- The ordering the spec sentence states for the leaderboard: score
descending, ties by accuracy descending, remaining ties by timestamp
descending.  This is the specification-side relation that the code
comparator is proved to realize; it is written from the words of the
spec, not from the code. -/
def lbSpecLe (a b : Profile) : Prop :=
  b.wpm15 < a.wpm15 ∨
    (b.wpm15 = a.wpm15 ∧
      (b.accuracy < a.accuracy ∨
        (b.accuracy = a.accuracy ∧ b.timestamp ≤ a.timestamp)))

/-- Insert into a sorted prefix, after every element that may sit before
the new one: the stable insertion step. -/
def insertSorted (le : α → α → Bool) (x : α) : List α → List α
  | [] => [x]
  | y :: ys => if le y x then y :: insertSorted le x ys else x :: y :: ys

/-- `Array.prototype.sort` with a consistent comparator.  The ECMAScript
sort is required to be stable, and a stable sort over a total preorder
has a unique result, so the stable insertion sort below computes exactly
what the JS engine computes for this comparator. -/
def jsSort (le : α → α → Bool) (xs : List α) : List α :=
  xs.foldl (fun acc x => insertSorted le x acc) []

/-- GET /api/leaderboard (server.js lines 502-520), up to the JSON
projection: filter to the admitted region and sort with the comparator. -/
def apiLeaderboard (users : List Profile) : List Profile :=
  jsSort lbLe (users.filter (fun u => countryOrIL u == "IL"))

/-- One row of the leaderboard JSON response (server.js lines 512-519). -/
structure LBEntry where
  username : String
  wpm15 : Int
  accuracy : Rat
  timestamp : Int
deriving DecidableEq, Repr

/-- The full GET /api/leaderboard response body. -/
def apiLeaderboardJson (users : List Profile) : List LBEntry :=
  (apiLeaderboard users).map fun u => ⟨u.username, u.wpm15, u.accuracy, u.timestamp⟩

/-- The per-user loop of the background refresh sweep (server.js lines
531-561), threading the keep list and the keystore.  `probe` maps a
stored Ape Key to the upstream response of its validation request and
`fetch` maps a username to the overall outcome of its best-result fetch.
Mirrors the source exactly: a missing key drops the profile silently; the
truthiness test `if (!valid)` on the object returned by `testApeKey`
never fires, so the eviction call is dead; a failed fetch is caught by
the inner catch, which logs and does not push the profile onto keep; a
successful fetch overwrites score, accuracy, timestamp and country and
keeps the profile. -/
def sweepKeep (probe : String → ProbeResp) (fetch : String → Option Score) (now : Int) :
    List Profile → Keystore → List Profile × Keystore
  | [], ks => ([], ks)
  | u :: rest, ks =>
      match getApeKey ks u.username with
      | none => sweepKeep probe fetch now rest ks
      | some key =>
          match testApeKey (probe key) with
          | .null => sweepKeep probe fetch now rest (deleteUserAndKey ks u.username)
          | .obj _ =>
              match fetch u.username with
              | none => sweepKeep probe fetch now rest ks
              | some sc =>
                  let u2 : Profile :=
                    { u with wpm15 := sc.wpm15, accuracy := sc.accuracy,
                             timestamp := now, country := some "IL" }
                  let r := sweepKeep probe fetch now rest ks
                  (u2 :: r.1, r.2)

/-- One tick of the background refresh sweep (server.js lines 529-565):
run the per-user loop over the loaded profiles and persist the surviving
list as one overwrite. -/
def sweepOnce (probe : String → ProbeResp) (fetch : String → Option Score) (now : Int)
    (st : ServerState) : ServerState :=
  let r := sweepKeep probe fetch now st.users st.keystore
  ⟨r.1, r.2⟩

/-- A parsed upstream test result entry: the fields the fallback chain in
part_000 reads (mode, mode2, wpm, acc). -/
structure MtRun where
  mode : String
  mode2 : Int
  wpm : Rat
  acc : Rat
deriving DecidableEq, Repr

/-- An upstream HTTP exchange for one endpoint call of the fallback
chain: a network failure (timeout or abort) or a status plus the parsed
body, where `none` stands for an unparseable or wrongly shaped body. -/
inductive UpResp (β : Type) where
  | network (msg : String)
  | http (status : Nat) (body : Option β)
deriving DecidableEq, Repr

/-- `normalizePbArray` (part_000 lines 30-36): extract the entry array
from the personal-bests body in either accepted shape, defaulting to
empty. -/
def normalizePbArray (body : Option (List MtRun)) : List MtRun := body.getD []

/-- `pickBest15s` (part_000 lines 38-51): among time/15 entries keep the
one with the strictly largest wpm (first wins on ties). -/
def pickBest15s (entries : List MtRun) : Option MtRun :=
  entries.foldl
    (fun best e =>
      if e.mode == "time" && e.mode2 == 15 then
        match best with
        | none => some e
        | some b => if b.wpm < e.wpm then some e else best
      else best)
    none

/-- `clampNum` (part_000 lines 7-11). -/
def clampNum (n lo hi : Rat) : Rat := min hi (max lo n)

/-- `Math.round`: round half toward positive infinity. -/
def jsRound (q : Rat) : Int := (q + 1/2).floor

/-- `round0` (part_000 line 12): clamp into [0, 2000] then round. -/
def round0 (n : Rat) : Int := jsRound (clampNum n 0 2000)

/-- `round2` (part_000 line 13): clamp into [0, 100] then round to two
decimals. -/
def round2 (n : Rat) : Rat := (jsRound (clampNum n 0 100 * 100) : Rat) / 100

/-- The value `fetchMonkeytype15s` resolves with. -/
structure MtResult where
  username : String
  wpm15 : Int
  accuracy : Rat
deriving DecidableEq, Repr

/-- The two rejection reasons of `fetchMonkeytype15s`. -/
inductive MtError where
  | noApeKey
  | noResult
deriving DecidableEq, Repr

/-- The three upstream endpoints of the fallback chain. -/
inductive MtEndpoint where
  | personalBests
  | resultsLast
  | resultsWindow
deriving DecidableEq, Repr

/-- The personal-bests retry loop of `fetchMonkeytype15s` (part_000 lines
67-98), over the responses of the successive attempts, accumulating the
trace of issued calls.  A network error is caught and the loop continues;
a 2xx with a qualifying best returns it; a 2xx without one breaks to the
fallbacks; a 401/470/471/472 throws, but the throw lands in the same
catch that handles network errors, so the loop continues instead of
failing the chain; any other status breaks to the fallbacks. -/
def pbPhase (siteUsername : String) :
    List (UpResp (List MtRun)) → List MtEndpoint → Option MtResult × List MtEndpoint
  | [], tr => (none, tr)
  | r :: rest, tr =>
      let tr2 := tr ++ [MtEndpoint.personalBests]
      match r with
      | .network _ => pbPhase siteUsername rest tr2
      | .http st body =>
          if 200 ≤ st ∧ st ≤ 299 then
            match pickBest15s (normalizePbArray body) with
            | some best => (some ⟨siteUsername, round0 best.wpm, round2 best.acc⟩, tr2)
            | none => (none, tr2)
          else if st = 401 ∨ st = 470 ∨ st = 471 ∨ st = 472 then
            pbPhase siteUsername rest tr2
          else (none, tr2)

/-- Fallback 2 of `fetchMonkeytype15s` (part_000 lines 100-115): use the
most recent result if it is a time/15 run. -/
def tryLast (siteUsername : String) (resp : UpResp MtRun) : Option MtResult :=
  match resp with
  | .network _ => none
  | .http st body =>
      if 200 ≤ st ∧ st ≤ 299 then
        match body with
        | some d =>
            if d.mode == "time" && d.mode2 == 15 then
              some ⟨siteUsername, round0 d.wpm, round2 d.acc⟩
            else none
        | none => none
      else none

/-- Fallback 3 of `fetchMonkeytype15s` (part_000 lines 117-135): scan the
recent-results window for the first time/15 run. -/
def tryWindow (siteUsername : String) (resp : UpResp (List MtRun)) : Option MtResult :=
  match resp with
  | .network _ => none
  | .http st body =>
      if 200 ≤ st ∧ st ≤ 299 then
        match (body.getD []).find? (fun r2 => r2.mode == "time" && r2.mode2 == 15) with
        | some m => some ⟨siteUsername, round0 m.wpm, round2 m.acc⟩
        | none => none
      else none

/-- The upstream responses one call of `fetchMonkeytype15s` may consume:
one response per personal-bests attempt of the retry loop (the code makes
at most three) and one per fallback endpoint. -/
structure MtOracle where
  pb1 : UpResp (List MtRun)
  pb2 : UpResp (List MtRun)
  pb3 : UpResp (List MtRun)
  last : UpResp MtRun
  window : UpResp (List MtRun)
deriving DecidableEq, Repr

/-- `fetchMonkeytype15s` (part_000 lines 60-138) together with the trace
of endpoints it actually called, in order. -/
def fetchMonkeytype15s (siteUsername : String) (apeKey : Option String) (o : MtOracle) :
    Except MtError MtResult × List MtEndpoint :=
  match apeKey with
  | none => (.error .noApeKey, [])
  | some _ =>
    match pbPhase siteUsername [o.pb1, o.pb2, o.pb3] [] with
    | (some r, tr) => (.ok r, tr)
    | (none, tr) =>
      let tr2 := tr ++ [MtEndpoint.resultsLast]
      match tryLast siteUsername o.last with
      | some r => (.ok r, tr2)
      | none =>
        let tr3 := tr2 ++ [MtEndpoint.resultsWindow]
        match tryWindow siteUsername o.window with
        | some r => (.ok r, tr3)
        | none => (.error .noResult, tr3)

/-- A credential-store mutation, as quantified over by claim C4. -/
inductive KsOp where
  | upsert (username apeKey : String)
  | setHash (keyHash username : String)
deriving DecidableEq, Repr

/-- Apply one mutation to the keystore. -/
def applyOp (ks : Keystore) : KsOp → Keystore
  | .upsert u c => upsertKey ks u c
  | .setHash h v => setUsernameForKeyHash ks h v

/-- The calling discipline of the join workflow: `upsertKey` is only
reached when the hash of the new credential is unbound or already bound
to this same username (branch C runs only after the reverse lookup came
back empty), and `setUsernameForKeyHash` is only called with the hash of
the credential just stored for that username. -/
def opPre (ks : Keystore) : KsOp → Bool
  | .upsert u c =>
      decide (lookupKV ks.byHash (sha256 c) = none ∨
              lookupKV ks.byHash (sha256 c) = some (jsTrim u))
  | .setHash h v =>
      match lookupKV ks.byUser (jsTrim v) with
      | some cv => decide (sha256 cv = h)
      | none => false

/-- A run of mutations each of which respects the join-workflow calling
discipline at the state it executes in. -/
def goodRun (ks : Keystore) : List KsOp → Bool
  | [] => true
  | op :: rest => opPre ks op && goodRun (applyOp ks op) rest

/-- Forward-reverse agreement: every forward entry byUser U = C has the
reverse entry byHash sha256 C = U. -/
def KsInv (ks : Keystore) : Prop :=
  ∀ u c, lookupKV ks.byUser u = some c → lookupKV ks.byHash (sha256 c) = some u

/-- The full conclusion of claim C4: forward-reverse agreement, plus no
two distinct usernames resolving from one credential hash. -/
def KsBijective (ks : Keystore) : Prop :=
  KsInv ks ∧
    ∀ u1 u2 c1 c2,
      lookupKV ks.byUser u1 = some c1 → lookupKV ks.byUser u2 = some c2 →
      sha256 c1 = sha256 c2 → u1 = u2

theorem testApeKey_obj (resp : ProbeResp) : ∃ a, testApeKey resp = JsVal.obj a := by
  cases resp with
  | network m => exact ⟨_, rfl⟩
  | http st =>
      simp only [testApeKey]
      split_ifs <;> exact ⟨_, rfl⟩

theorem lookup_setKV_self (m : List (String × String)) (k v : String) :
    lookupKV (setKV m k v) k = some v := by
  induction m with
  | nil => simp [setKV, lookupKV]
  | cons e rest ih =>
      obtain ⟨k1, v1⟩ := e
      by_cases h : k1 = k
      · simp [setKV, h, lookupKV]
      · simp [setKV, h, lookupKV, ih]

theorem lookup_setKV_ne (m : List (String × String)) (k v k2 : String) (h : k2 ≠ k) :
    lookupKV (setKV m k v) k2 = lookupKV m k2 := by
  induction m with
  | nil => simp [setKV, lookupKV, Ne.symm h]
  | cons e rest ih =>
      obtain ⟨k1, v1⟩ := e
      by_cases h1 : k1 = k
      · subst h1
        simp [setKV, lookupKV, Ne.symm h]
      · simp [setKV, h1, lookupKV, ih]

theorem lookup_delKV_self (m : List (String × String)) (k : String) :
    lookupKV (delKV m k) k = none := by
  induction m with
  | nil => rfl
  | cons e rest ih =>
      obtain ⟨k1, v1⟩ := e
      simp only [delKV, List.filter_cons] at ih ⊢
      by_cases h1 : k1 = k
      · simpa [h1] using ih
      · simpa [h1, lookupKV] using ih

theorem lookup_delKV_ne (m : List (String × String)) (k k2 : String) (h : k2 ≠ k) :
    lookupKV (delKV m k) k2 = lookupKV m k2 := by
  induction m with
  | nil => rfl
  | cons e rest ih =>
      obtain ⟨k1, v1⟩ := e
      simp only [delKV, List.filter_cons] at ih ⊢
      by_cases h1 : k1 = k
      · subst h1
        simp only [beq_self_eq_true, Bool.not_true, Bool.false_eq_true, if_false]
        rw [ih]
        simp [lookupKV, Ne.symm h]
      · have hcond : (!(k1 == k)) = true := by simp [h1]
        rw [hcond, if_pos rfl]
        simp only [lookupKV]
        by_cases h2 : k1 = k2
        · simp [h2]
        · simp [h2, ih]

theorem ksInv_upsertKey (ks : Keystore) (username apeKey : String)
    (hinv : KsInv ks)
    (hpre : lookupKV ks.byHash (sha256 apeKey) = none ∨
            lookupKV ks.byHash (sha256 apeKey) = some (jsTrim username)) :
    KsInv (upsertKey ks username apeKey) := by
  intro u c hc
  simp only [upsertKey] at hc ⊢
  by_cases hu : u = jsTrim username
  · subst hu
    rw [lookup_setKV_self] at hc
    injection hc with hc2
    subst hc2
    rw [lookup_setKV_self]
  · rw [lookup_setKV_ne _ _ _ _ hu] at hc
    have hbh := hinv u c hc
    have hne1 : sha256 c ≠ sha256 apeKey := by
      intro he
      rcases hpre with hp | hp
      · rw [← he, hbh] at hp
        exact Option.noConfusion hp
      · rw [← he, hbh] at hp
        injection hp with hp2
        exact hu hp2
    rw [lookup_setKV_ne _ _ _ _ hne1]
    cases hprev : lookupKV ks.byUser (jsTrim username) with
    | none => simpa [hprev] using hbh
    | some prev =>
        dsimp only
        by_cases hcnd : prev ≠ "" ∧ prev ≠ apeKey ∧
            lookupKV ks.byHash (sha256 prev) = some (jsTrim username)
        · rw [if_pos hcnd]
          have hne2 : sha256 c ≠ sha256 prev := by
            intro he
            rw [he, hcnd.2.2] at hbh
            injection hbh with hp2
            exact hu hp2.symm
          rw [lookup_delKV_ne _ _ _ hne2]
          exact hbh
        · rw [if_neg hcnd]
          exact hbh

theorem ksInv_setHash (ks : Keystore) (keyHash username : String)
    (hinv : KsInv ks)
    (hpre : ∃ cv, lookupKV ks.byUser (jsTrim username) = some cv ∧ sha256 cv = keyHash) :
    KsInv (setUsernameForKeyHash ks keyHash username) := by
  intro u c hc
  simp only [setUsernameForKeyHash] at hc ⊢
  have hbh := hinv u c hc
  obtain ⟨cv, hcv, hsh⟩ := hpre
  have hbv := hinv _ _ hcv
  by_cases he : sha256 c = keyHash
  · rw [he, lookup_setKV_self]
    rw [hsh] at hbv
    rw [he] at hbh
    rw [hbv] at hbh
    injection hbh with h2
    rw [h2]
  · rw [lookup_setKV_ne _ _ _ _ he]
    exact hbh

theorem ksInv_applyOp (ks : Keystore) (op : KsOp)
    (hinv : KsInv ks) (hpre : opPre ks op = true) :
    KsInv (applyOp ks op) := by
  cases op with
  | upsert u c =>
      apply ksInv_upsertKey _ _ _ hinv
      simpa [opPre] using hpre
  | setHash h v =>
      apply ksInv_setHash _ _ _ hinv
      simp only [opPre] at hpre
      cases hcv : lookupKV ks.byUser (jsTrim v) with
      | none =>
          rw [hcv] at hpre
          exact absurd hpre (by simp)
      | some cv =>
          rw [hcv] at hpre
          exact ⟨cv, rfl, of_decide_eq_true hpre⟩

theorem ksInv_run (ops : List KsOp) :
    ∀ ks : Keystore, KsInv ks → goodRun ks ops = true → KsInv (ops.foldl applyOp ks) := by
  induction ops with
  | nil =>
      intro ks h _
      simpa using h
  | cons op rest ih =>
      intro ks h hrun
      simp only [goodRun, Bool.and_eq_true] at hrun
      simp only [List.foldl_cons]
      exact ih _ (ksInv_applyOp ks op h hrun.1) hrun.2

theorem sweepKeep_spec (probe : String → ProbeResp) (fetch : String → Option Score) (now : Int) :
    ∀ (users : List Profile) (ks : Keystore),
      sweepKeep probe fetch now users ks =
        (users.filterMap (fun u =>
          match getApeKey ks u.username, fetch u.username with
          | some _, some sc =>
              some { u with wpm15 := sc.wpm15, accuracy := sc.accuracy,
                            timestamp := now, country := some "IL" }
          | _, _ => none), ks) := by
  intro users
  induction users with
  | nil => intro ks; simp [sweepKeep]
  | cons u rest ih =>
      intro ks
      simp only [sweepKeep, List.filterMap_cons]
      cases hk : getApeKey ks u.username with
      | none => simp [hk, ih]
      | some key =>
          obtain ⟨a, ha⟩ := testApeKey_obj (probe key)
          cases hf : fetch u.username with
          | none => simp [hk, ha, hf, ih]
          | some sc => simp [hk, ha, hf, ih]

theorem insertSorted_perm (le : α → α → Bool) (x : α) (l : List α) :
    (insertSorted le x l).Perm (x :: l) := by
  induction l with
  | nil => simp [insertSorted]
  | cons y ys ih =>
      simp only [insertSorted]
      by_cases h : le y x = true
      · rw [if_pos h]
        exact (ih.cons y).trans (List.Perm.swap x y ys)
      · rw [if_neg h]

theorem foldl_insert_perm (le : α → α → Bool) :
    ∀ (xs acc : List α),
      (xs.foldl (fun a x => insertSorted le x a) acc).Perm (acc ++ xs) := by
  intro xs
  induction xs with
  | nil => intro acc; simp
  | cons x xs ih =>
      intro acc
      simp only [List.foldl_cons]
      refine (ih (insertSorted le x acc)).trans ?_
      refine (((insertSorted_perm le x acc).append_right xs).trans ?_)
      simpa using List.perm_middle.symm

theorem jsSort_perm (le : α → α → Bool) (xs : List α) : (jsSort le xs).Perm xs := by
  simpa [jsSort] using foldl_insert_perm le xs []

theorem insertSorted_pairwise (le : α → α → Bool)
    (htr : ∀ a b c, le a b = true → le b c = true → le a c = true)
    (hto : ∀ a b, le a b = true ∨ le b a = true) (x : α) (l : List α)
    (h : l.Pairwise (fun a b => le a b = true)) :
    (insertSorted le x l).Pairwise (fun a b => le a b = true) := by
  induction l with
  | nil => simp [insertSorted]
  | cons y ys ih =>
      rw [List.pairwise_cons] at h
      obtain ⟨hy, hys⟩ := h
      simp only [insertSorted]
      by_cases hle : le y x = true
      · rw [if_pos hle]
        rw [List.pairwise_cons]
        constructor
        · intro z hz
          have hmem := (insertSorted_perm le x ys).mem_iff.mp hz
          rcases List.mem_cons.mp hmem with hzx | hz2
          · rw [hzx]; exact hle
          · exact hy z hz2
        · exact ih hys
      · rw [if_neg hle]
        have hxy : le x y = true := (hto x y).resolve_right hle
        rw [List.pairwise_cons]
        constructor
        · intro z hz
          rcases List.mem_cons.mp hz with hzy | hz2
          · rw [hzy]; exact hxy
          · exact htr x y z hxy (hy z hz2)
        · exact List.pairwise_cons.mpr ⟨hy, hys⟩

theorem foldl_insert_pairwise (le : α → α → Bool)
    (htr : ∀ a b c, le a b = true → le b c = true → le a c = true)
    (hto : ∀ a b, le a b = true ∨ le b a = true) :
    ∀ (xs acc : List α), acc.Pairwise (fun a b => le a b = true) →
      (xs.foldl (fun a x => insertSorted le x a) acc).Pairwise (fun a b => le a b = true) := by
  intro xs
  induction xs with
  | nil => intro acc h; simpa using h
  | cons x xs ih =>
      intro acc h
      simp only [List.foldl_cons]
      exact ih _ (insertSorted_pairwise le htr hto x acc h)

theorem jsSort_pairwise (le : α → α → Bool)
    (htr : ∀ a b c, le a b = true → le b c = true → le a c = true)
    (hto : ∀ a b, le a b = true ∨ le b a = true) (xs : List α) :
    (jsSort le xs).Pairwise (fun a b => le a b = true) :=
  foldl_insert_pairwise le htr hto xs [] (by simp)

theorem lbLe_iff (a b : Profile) : lbLe a b = true ↔ lbSpecLe a b := by
  unfold lbLe lbSpecLe
  by_cases h1 : b.wpm15 = a.wpm15
  · rw [if_neg (by simp [h1])]
    by_cases h2 : b.accuracy = a.accuracy
    · rw [if_neg (by simp [h2])]
      rw [decide_eq_true_eq]
      constructor
      · intro h
        exact Or.inr ⟨h1, Or.inr ⟨h2, h⟩⟩
      · rintro (h | ⟨-, h | ⟨-, h⟩⟩)
        · exact absurd h (by simp [h1])
        · exact absurd h (by simp [h2])
        · exact h
    · rw [if_pos h2]
      rw [decide_eq_true_eq]
      constructor
      · intro h
        exact Or.inr ⟨h1, Or.inl (lt_of_le_of_ne h h2)⟩
      · rintro (h | ⟨-, h | ⟨heq, -⟩⟩)
        · exact absurd h (by simp [h1])
        · exact h.le
        · exact absurd heq h2
  · rw [if_pos h1]
    rw [decide_eq_true_eq]
    constructor
    · intro h
      exact Or.inl (lt_of_le_of_ne h h1)
    · rintro (h | ⟨heq, -⟩)
      · exact h.le
      · exact absurd heq h1

theorem lbLe_total (a b : Profile) : lbLe a b = true ∨ lbLe b a = true := by
  rw [lbLe_iff, lbLe_iff]
  unfold lbSpecLe
  rcases lt_trichotomy a.wpm15 b.wpm15 with h | h | h
  · exact Or.inr (Or.inl h)
  · rcases lt_trichotomy a.accuracy b.accuracy with h2 | h2 | h2
    · exact Or.inr (Or.inr ⟨h, Or.inl h2⟩)
    · rcases le_total a.timestamp b.timestamp with h3 | h3
      · exact Or.inr (Or.inr ⟨h, Or.inr ⟨h2, h3⟩⟩)
      · exact Or.inl (Or.inr ⟨h.symm, Or.inr ⟨h2.symm, h3⟩⟩)
    · exact Or.inl (Or.inr ⟨h.symm, Or.inl h2⟩)
  · exact Or.inl (Or.inl h)

theorem lbLe_trans (a b c : Profile) (h1 : lbLe a b = true) (h2 : lbLe b c = true) :
    lbLe a c = true := by
  rw [lbLe_iff] at h1 h2 ⊢
  rcases h1 with h1 | ⟨e1, h1⟩
  · rcases h2 with h2 | ⟨e2, h2⟩
    · exact Or.inl (h2.trans h1)
    · exact Or.inl (by rw [e2]; exact h1)
  · rcases h2 with h2 | ⟨e2, h2⟩
    · exact Or.inl (by rw [← e1]; exact h2)
    · refine Or.inr ⟨e2.trans e1, ?_⟩
      rcases h1 with h1 | ⟨f1, h1⟩
      · rcases h2 with h2 | ⟨f2, h2⟩
        · exact Or.inl (h2.trans h1)
        · exact Or.inl (by rw [f2]; exact h1)
      · rcases h2 with h2 | ⟨f2, h2⟩
        · exact Or.inl (by rw [← f1]; exact h2)
        · exact Or.inr ⟨f2.trans f1, h2.trans h1⟩

theorem upsertUser_replace_first :
    ∀ (pre : List Profile) (old : Profile) (post : List Profile) (p : ProfilePatch),
      (∀ w ∈ pre, jsToLower w.username ≠ jsToLower p.username) →
      jsToLower old.username = jsToLower p.username →
      upsertUser (pre ++ old :: post) p = pre ++ mergeProfile old p :: post := by
  intro pre
  induction pre with
  | nil =>
      intro old post p _ hold
      simp [upsertUser, hold]
  | cons w pre ih =>
      intro old post p hpre hold
      have hw := hpre w (List.mem_cons_self w pre)
      simp only [List.cons_append, upsertUser]
      rw [if_neg hw]
      exact congrArg (fun l => w :: l)
        (ih old post p (fun w2 hm => hpre w2 (List.mem_cons_of_mem w hm)) hold)

/-- C1 counterexample: the claim as stated is false.  In the state where
the profile and forward key k1 exist for alice and the supplied credential
k2 hashes differently from k1 but is already bound to wendy in the
reverse index, a join typed as alice with k2 does not return the conflict
outcome: branch A of the handler fires first, re-logs the caller in as
wendy and refreshes the profile store. -/
theorem c1_counterexample :
    joinPost true true (ProbeResp.http 200) (some ⟨70, 96⟩) 9 "alice" "k2"
      ⟨[⟨"alice", 50, 90, 0, some "IL"⟩],
       ⟨[("alice", "k1"), ("wendy", "k2")],
        [("sha256:k1", "alice"), ("sha256:k2", "wendy")]⟩⟩ =
    (JoinOutcome.redirectHome "wendy",
     ⟨[⟨"alice", 50, 90, 0, some "IL"⟩, ⟨"wendy", 70, 96, 9, some "IL"⟩],
      ⟨[("alice", "k1"), ("wendy", "k2")],
       [("sha256:k1", "alice"), ("sha256:k2", "wendy")]⟩⟩) := by decide

/-- C1 amended: if additionally the supplied credential hash is not bound
to any username in the reverse index (so the re-login branch A does not
fire), then a join for an existing username whose stored credential
hashes differently returns the conflict outcome and leaves both stores
exactly as they were. -/
theorem c1_amended (probe : ProbeResp) (fetch : Option Score) (now : Int)
    (uIn keyIn c1 : String) (st : ServerState)
    (hval : validUsername (normalizeUsername uIn) = true)
    (hne : jsTrim keyIn ≠ "")
    (hlen : (jsTrim keyIn).length ≤ 180)
    (hunbound : findUsernameByKeyHash st.keystore (sha256 (jsTrim keyIn)) = none)
    (hex : usernameExists st.users (normalizeUsername uIn) = true)
    (hstored : getApeKey st.keystore (normalizeUsername uIn) = some c1)
    (hdiff : sha256 c1 ≠ sha256 (jsTrim keyIn)) :
    joinPost true true probe fetch now uIn keyIn st = (JoinOutcome.conflict, st) := by
  obtain ⟨a, ha⟩ := testApeKey_obj probe
  simp [joinPost, hval, hne, Nat.not_lt.mpr hlen, ha, hunbound, hex, hstored, hdiff]

theorem c1_amended_witness :
    joinPost true true (ProbeResp.http 200) (some ⟨70, 96⟩) 9 "alice" "k2"
      ⟨[⟨"alice", 50, 90, 0, some "IL"⟩],
       ⟨[("alice", "k1")], [("sha256:k1", "alice")]⟩⟩ =
    (JoinOutcome.conflict,
     ⟨[⟨"alice", 50, 90, 0, some "IL"⟩],
      ⟨[("alice", "k1")], [("sha256:k1", "alice")]⟩⟩) :=
  c1_amended (ProbeResp.http 200) (some ⟨70, 96⟩) 9 "alice" "k2" "k1"
    ⟨[⟨"alice", 50, 90, 0, some "IL"⟩], ⟨[("alice", "k1")], [("sha256:k1", "alice")]⟩⟩
    (by decide) (by decide) (by decide) (by decide) (by decide) (by decide) (by decide)

/-- C2: the join never rejects an invalid credential.  The handler tests
the truthiness of the object returned by testApeKey, and every control
path of testApeKey returns an object, so the rejection branch is dead: a
join with a fresh username and a credential whose upstream probe answers
401 (which testApeKey itself classifies as ok false, unauthorized, as the
second conjunct shows) still creates the forward and reverse bindings and
ends in a server error from the failed score fetch instead of the
authorization rejection the claim requires. -/
theorem c2_invalid_key_not_rejected :
    joinPost true true (ProbeResp.http 401) none 0 "alice" "badkey" ⟨[], ⟨[], []⟩⟩ =
      (JoinOutcome.serverError,
       ⟨[], ⟨[("alice", "badkey")], [("sha256:badkey", "alice")]⟩⟩) ∧
    testApeKey (ProbeResp.http 401) =
      JsVal.obj ⟨some false, some "unauthorized", some 401⟩ := by decide

/-- C3: a join whose credential hash is already bound in the reverse
index finishes as a re-login to the bound username, whatever username was
typed: the session is established as the bound username, the bound
username is the one whose profile is refreshed with the fetched score,
and the keystore is returned untouched, so no binding for the typed
username is created. -/
theorem c3_relogin_bound (probe : ProbeResp) (fetch : Option Score) (now : Int)
    (vIn keyIn bound : String) (sc : Score) (st : ServerState)
    (hval : validUsername (normalizeUsername vIn) = true)
    (hne : jsTrim keyIn ≠ "")
    (hlen : (jsTrim keyIn).length ≤ 180)
    (hbound : findUsernameByKeyHash st.keystore (sha256 (jsTrim keyIn)) = some bound)
    (hfetch : fetch = some sc) :
    joinPost true true probe fetch now vIn keyIn st =
      (JoinOutcome.redirectHome bound,
       { st with users :=
          upsertUser st.users ⟨bound, some sc.wpm15, some sc.accuracy, some now, some "IL"⟩ }) := by
  obtain ⟨a, ha⟩ := testApeKey_obj probe
  subst hfetch
  simp [joinPost, hval, hne, Nat.not_lt.mpr hlen, ha, hbound, refreshOne]

theorem c3_relogin_bound_witness :
    joinPost true true (ProbeResp.http 200) (some ⟨70, 96⟩) 9 "victor" "k1"
      ⟨[⟨"alice", 50, 90, 0, some "IL"⟩], ⟨[("alice", "k1")], [("sha256:k1", "alice")]⟩⟩ =
    (JoinOutcome.redirectHome "alice",
     ⟨[⟨"alice", 70, 96, 9, some "IL"⟩], ⟨[("alice", "k1")], [("sha256:k1", "alice")]⟩⟩) := by
  have h := c3_relogin_bound (ProbeResp.http 200) (some ⟨70, 96⟩) 9 "victor" "k1" "alice"
    ⟨70, 96⟩ ⟨[⟨"alice", 50, 90, 0, some "IL"⟩], ⟨[("alice", "k1")], [("sha256:k1", "alice")]⟩⟩
    (by decide) (by decide) (by decide) (by decide) rfl
  exact h.trans (by decide)

/-- C4 counterexample: the claim as stated is false.  The two upsertKey
calls upsert alice k1 then upsert bob k1 (both drawn from the quantified
operation set) leave the forward entry byUser alice = k1 in place while
the reverse lookup of sha256 k1 answers bob, not alice. -/
theorem c4_counterexample :
    lookupKV ([KsOp.upsert "alice" "k1", KsOp.upsert "bob" "k1"].foldl applyOp
        ⟨[], []⟩).byUser "alice" = some "k1" ∧
    lookupKV ([KsOp.upsert "alice" "k1", KsOp.upsert "bob" "k1"].foldl applyOp
        ⟨[], []⟩).byHash (sha256 "k1") = some "bob" ∧
    ("bob" : String) ≠ "alice" := by decide

/-- C4 amended: the forward and reverse indices agree as the claim states
under the calling discipline the join workflow actually follows, namely
that upsertKey is only invoked while the hash of the inserted credential
is unbound or bound to that same username, and setUsernameForKeyHash is
only invoked with the hash of the credential currently stored for that
username.  For every such run from a state satisfying the invariant,
every forward entry byUser U = C has reverse entry byHash sha256 C = U
and no two distinct usernames resolve from one credential hash. -/
theorem c4_amended (ops : List KsOp) (ks : Keystore)
    (h0 : KsInv ks) (hrun : goodRun ks ops = true) :
    KsBijective (ops.foldl applyOp ks) := by
  have hinv := ksInv_run ops ks h0 hrun
  refine ⟨hinv, ?_⟩
  intro u1 u2 c1 c2 h1 h2 hsh
  have e1 := hinv u1 c1 h1
  have e2 := hinv u2 c2 h2
  rw [hsh] at e1
  rw [e1] at e2
  exact Option.some.inj e2

theorem c4_amended_witness :
    KsBijective ([KsOp.upsert "alice" "k1", KsOp.setHash (sha256 "k1") "alice",
      KsOp.upsert "bob" "k2"].foldl applyOp ⟨[], []⟩) :=
  c4_amended [KsOp.upsert "alice" "k1", KsOp.setHash (sha256 "k1") "alice",
      KsOp.upsert "bob" "k2"] ⟨[], []⟩
    (fun u c h => Option.noConfusion h) (by decide)

/-- C5: the sweep never removes the binding of an invalid credential.
With one profile for alice bound to k1 and an upstream probe answering
401 for k1 (and the score fetch failing, as it does for an invalid key),
the sweep drops the profile only through the incidental fetch-failure
path, while the keystore comes back byte-for-byte unchanged: the forward
and reverse entries for k1 are still present afterwards, because the
truthiness test on the object returned by testApeKey never takes the
eviction branch and deleteUserAndKey is never called. -/
theorem c5_sweep_keeps_binding :
    sweepOnce (fun _ => ProbeResp.http 401) (fun _ => none) 5
      ⟨[⟨"alice", 50, 90, 0, some "IL"⟩], ⟨[("alice", "k1")], [("sha256:k1", "alice")]⟩⟩ =
    ⟨[], ⟨[("alice", "k1")], [("sha256:k1", "alice")]⟩⟩ ∧
    findUsernameByKeyHash
      (sweepOnce (fun _ => ProbeResp.http 401) (fun _ => none) 5
        ⟨[⟨"alice", 50, 90, 0, some "IL"⟩],
         ⟨[("alice", "k1")], [("sha256:k1", "alice")]⟩⟩).keystore
      (sha256 "k1") = some "alice" := by decide

/-- C6 counterexample: the claim as stated is false.  A profile whose
stored credential probes as valid (HTTP 200) but whose score fetch fails
does not survive the sweep with its previous values: the per-user loop
only pushes a profile onto the keep list after a successful fetch, so the
profile is gone from the profile store the sweep persists. -/
theorem c6_counterexample :
    (sweepOnce (fun _ => ProbeResp.http 200) (fun _ => none) 5
      ⟨[⟨"alice", 50, 90, 0, some "IL"⟩],
       ⟨[("alice", "k1")], [("sha256:k1", "alice")]⟩⟩).users = [] := by decide

/-- C6 amended: during a sweep, a profile whose credential is present but
whose score fetch fails is dropped from the profile store (whatever the
probe said), while the keystore is left unchanged: after the sweep no
surviving profile carries that username, because only profiles whose
fetch succeeded are kept. -/
theorem c6_amended (probe : String → ProbeResp) (fetch : String → Option Score) (now : Int)
    (st : ServerState) (u : Profile)
    (hmem : u ∈ st.users)
    (hkey : (getApeKey st.keystore u.username).isSome = true)
    (hfail : fetch u.username = none) :
    ((sweepOnce probe fetch now st).users.all
        (fun v => !(v.username == u.username))) = true ∧
    (sweepOnce probe fetch now st).keystore = st.keystore := by
  have hspec := sweepKeep_spec probe fetch now st.users st.keystore
  constructor
  · rw [List.all_eq_true]
    intro v hv
    simp only [sweepOnce, hspec] at hv
    rw [List.mem_filterMap] at hv
    obtain ⟨w, hw, hstep⟩ := hv
    cases hgw : getApeKey st.keystore w.username with
    | none =>
        rw [hgw] at hstep
        exact absurd hstep (by simp)
    | some key =>
        cases hfw : fetch w.username with
        | none =>
            rw [hgw, hfw] at hstep
            exact absurd hstep (by simp)
        | some sc =>
            rw [hgw, hfw] at hstep
            injection hstep with h2
            have hvw : v.username = w.username := by rw [← h2]
            simp only [Bool.not_eq_true', beq_eq_false_iff_ne, ne_eq]
            intro heq
            rw [hvw] at heq
            rw [heq] at hfw
            rw [hfail] at hfw
            exact Option.noConfusion hfw
  · simp only [sweepOnce, hspec]

theorem c6_amended_witness :
    ((sweepOnce (fun _ => ProbeResp.http 200) (fun _ => none) 5
        ⟨[⟨"alice", 50, 90, 0, some "IL"⟩],
         ⟨[("alice", "k1")], [("sha256:k1", "alice")]⟩⟩).users.all
      (fun v => !(v.username == "alice"))) = true ∧
    (sweepOnce (fun _ => ProbeResp.http 200) (fun _ => none) 5
        ⟨[⟨"alice", 50, 90, 0, some "IL"⟩],
         ⟨[("alice", "k1")], [("sha256:k1", "alice")]⟩⟩).keystore =
      ⟨[("alice", "k1")], [("sha256:k1", "alice")]⟩ :=
  c6_amended (fun _ => ProbeResp.http 200) (fun _ => none) 5
    ⟨[⟨"alice", 50, 90, 0, some "IL"⟩], ⟨[("alice", "k1")], [("sha256:k1", "alice")]⟩⟩
    ⟨"alice", 50, 90, 0, some "IL"⟩ (by decide) (by decide) rfl

/-- C7: the leaderboard route returns exactly the admitted-region
profiles, ordered by score descending with ties broken by accuracy
descending and remaining ties by timestamp descending; and on the three
example profiles A 80 95, B 80 97, C 90 90 the rendered order is C, B,
A. -/
theorem c7_leaderboard_order :
    (∀ users : List Profile,
        (apiLeaderboard users).Pairwise lbSpecLe ∧
        (apiLeaderboard users).Perm (users.filter fun u => countryOrIL u == "IL")) ∧
    apiLeaderboardJson
        [⟨"A", 80, 95, 1, some "IL"⟩, ⟨"B", 80, 97, 2, some "IL"⟩,
         ⟨"C", 90, 90, 3, some "IL"⟩] =
      [⟨"C", 90, 90, 3⟩, ⟨"B", 80, 97, 2⟩, ⟨"A", 80, 95, 1⟩] := by
  constructor
  · intro users
    constructor
    · have h := jsSort_pairwise lbLe lbLe_trans lbLe_total
        (users.filter fun u => countryOrIL u == "IL")
      exact h.imp fun hab => (lbLe_iff _ _).mp hab
    · exact jsSort_perm lbLe _
  · decide

/-- C8: an authentication-rejection status on the personal-bests call
does not short-circuit the fallback chain.  The throw sits inside the
same try whose catch handles transient errors by continuing the loop, so
with every upstream response being a 401 the client issues all three
personal-bests attempts and then still calls the most-recent-result and
recent-results-window endpoints, finally failing with the
no-qualifying-result error rather than the authorization error. -/
theorem c8_auth_status_not_fail_fast :
    fetchMonkeytype15s "alice" (some "k")
      ⟨UpResp.http 401 none, UpResp.http 401 none, UpResp.http 401 none,
       UpResp.http 401 none, UpResp.http 401 none⟩ =
    (Except.error MtError.noResult,
     [MtEndpoint.personalBests, MtEndpoint.personalBests, MtEndpoint.personalBests,
      MtEndpoint.resultsLast, MtEndpoint.resultsWindow]) := by rfl

/-- C9 counterexample: the example in the claim is false as stated.  A
proposed username of 25 allowed characters is not rejected: normalization
truncates it to its first 20 characters, which pass validation, and the
join proceeds all the way to a fresh registration under the truncated
name. -/
theorem c9_counterexample :
    joinPost true true (ProbeResp.http 200) (some ⟨70, 96⟩) 9
      "abcdefghijklmnopqrstuvwxy" "k9" ⟨[], ⟨[], []⟩⟩ =
    (JoinOutcome.redirectHome "abcdefghijklmnopqrst",
     ⟨[⟨"abcdefghijklmnopqrst", 70, 96, 9, some "IL"⟩],
      ⟨[("abcdefghijklmnopqrst", "k9")], [("sha256:k9", "abcdefghijklmnopqrst")]⟩⟩) ∧
    ("abcdefghijklmnopqrstuvwxy" : String).length = 25 := by decide

/-- C9 amended: for every admitted join request whose proposed username
still fails the charset/length validation after normalization (for
example one with a disallowed character, or shorter than three characters
after trimming; an over-long username is instead truncated to 20
characters by normalization and can then be accepted), the request is
rejected with the client-input error, the state is returned unchanged,
and the outcome is the same whatever the stores contain. -/
theorem c9_amended (probe : ProbeResp) (fetch : Option Score) (now : Int)
    (uIn keyIn : String) (st : ServerState)
    (hval : validUsername (normalizeUsername uIn) = false) :
    joinPost true true probe fetch now uIn keyIn st = (JoinOutcome.badUsername, st) := by
  simp [joinPost, hval]

theorem c9_amended_witness :
    joinPost true true (ProbeResp.http 200) none 0 "ab" "k1"
      ⟨[⟨"alice", 50, 90, 0, some "IL"⟩], ⟨[("alice", "k1")], [("sha256:k1", "alice")]⟩⟩ =
    (JoinOutcome.badUsername,
     ⟨[⟨"alice", 50, 90, 0, some "IL"⟩], ⟨[("alice", "k1")], [("sha256:k1", "alice")]⟩⟩) :=
  c9_amended (ProbeResp.http 200) none 0 "ab" "k1"
    ⟨[⟨"alice", 50, 90, 0, some "IL"⟩], ⟨[("alice", "k1")], [("sha256:k1", "alice")]⟩⟩
    (by decide)

/-- C10: when the patch matches an existing profile (the first
case-insensitive match on username), upsertUser replaces exactly that
profile by the spread merge of the old record with the patch: every field
absent from the patch keeps its stored value, and the profiles before and
after the match, and their order, are returned untouched. -/
theorem c10_upsert_merge (pre post : List Profile) (old : Profile) (p : ProfilePatch)
    (hpre : ∀ w ∈ pre, jsToLower w.username ≠ jsToLower p.username)
    (hold : jsToLower old.username = jsToLower p.username) :
    upsertUser (pre ++ old :: post) p = pre ++ mergeProfile old p :: post ∧
    (p.wpm15 = none → (mergeProfile old p).wpm15 = old.wpm15) ∧
    (p.accuracy = none → (mergeProfile old p).accuracy = old.accuracy) ∧
    (p.timestamp = none → (mergeProfile old p).timestamp = old.timestamp) ∧
    (p.country = none → (mergeProfile old p).country = old.country) := by
  refine ⟨upsertUser_replace_first pre old post p hpre hold, ?_, ?_, ?_, ?_⟩
  · intro h; simp [mergeProfile, h]
  · intro h; simp [mergeProfile, h]
  · intro h; simp [mergeProfile, h]
  · intro h; simp [mergeProfile, h]

theorem c10_upsert_merge_witness :
    upsertUser [⟨"bob", 60, 95, 1, some "IL"⟩, ⟨"Alice", 50, 90, 0, some "IL"⟩]
        ⟨"alice", some 70, none, none, none⟩ =
      [⟨"bob", 60, 95, 1, some "IL"⟩, ⟨"alice", 70, 90, 0, some "IL"⟩] ∧
    (mergeProfile ⟨"Alice", 50, 90, 0, some "IL"⟩ ⟨"alice", some 70, none, none, none⟩).accuracy
      = 90 := by
  have h := c10_upsert_merge [⟨"bob", 60, 95, 1, some "IL"⟩] []
    ⟨"Alice", 50, 90, 0, some "IL"⟩ ⟨"alice", some 70, none, none, none⟩
    (by decide) (by decide)
  exact ⟨h.1.trans (by decide), (h.2.2.1 rfl).trans (by decide)⟩
